import Mathlib

/-!
Verification development for the web-drumkit core.

Shallow embedding of the TypeScript sources:
* `src/audio/metronome.ts` — the beat scheduler (tick loop, start/stop,
  beats-per-bar resizing);
* `src/audio/sampler.ts` — the trigger engine (pad catalog, hi-hat choke,
  engine-mode fallback, audio unlock);
* `src/components/MidiSampler.tsx` — the binding resolver (capture
  state machine, conflict checks, persistence, CC edge-triggering).

Machine numbers are modelled as `Nat`/`Int`/`Rat`; JS `undefined` and
truthiness are modelled explicitly where the code depends on them.
-/

namespace Drumkit

/-! ## JS value modelling

The metronome function `start()` does `const ready = await ensureAudioStarted();
if (!ready) return;` where `ensureAudioStarted` is an `async function`
with no return statement, so the awaited value is `undefined`.  We model
just enough of JS truthiness to capture that. -/

/-- A JavaScript value as observed by the truthiness checks in the source:
either `undefined` (an async function that returns nothing) or a boolean. -/
inductive JsVal where
  | undef
  | jsBool (b : Bool)
  deriving Repr, DecidableEq

/-- JS truthiness: `undefined` is falsy; a boolean is itself. -/
def jsTruthy : JsVal → Bool
  | JsVal.undef => false
  | JsVal.jsBool b => b

/-! ## Beat scheduler: src/audio/metronome.ts -/

/-- One metronome click as rendered by the loop callback:
`clickHigh.triggerAttackRelease(1200, 16n, time, 0.9 * vol)` for an
accented beat, `clickLow.triggerAttackRelease(800, 16n, time, 0.6 * vol)`
otherwise. -/
inductive Click where
  | hard (gain : ℚ)
  | soft (gain : ℚ)
  deriving Repr, DecidableEq

/-- Module-level mutable state of `metronome.ts`. -/
structure MetState where
  bpm : ℤ
  beatsPerBar : ℕ
  isRunning : Bool
  currentBeat : ℕ
  currentBar : ℕ
  accents : List Bool
  volumes : List ℚ
  deriving Repr, DecidableEq

/-- Initial module state: `bpm = 100`, `beatsPerBar = 4`,
`accents = [true,false,false,false]` (index 0 set after the fill),
`volumes` all `1`, counters zero, not running. -/
def metInit0 : MetState :=
  { bpm := 100
    beatsPerBar := 4
    isRunning := false
    currentBeat := 0
    currentBar := 0
    accents := [true, false, false, false]
    volumes := [1, 1, 1, 1] }

/-- Clamp a rational into `[0,1]`, as `Math.max(0, Math.min(1, x))`. -/
def clamp01 (q : ℚ) : ℚ := max 0 (min 1 q)

/-- The `Tone.Loop` callback of `init()` (metronome.ts lines 31–44):
computes `beatInBar = currentBeat % beatsPerBar`, renders a hard or soft
click weighted by the per-beat volume, increments the bar counter when
`beatInBar === 0`, notifies the subscriber with `(beatInBar, currentBar)`,
then increments `currentBeat`.  Returns the notified pair, the click, and
the updated state. -/
def metTick (s : MetState) : (ℕ × ℕ) × Click × MetState :=
  let beatInBar := s.currentBeat % s.beatsPerBar
  let vol := clamp01 (s.volumes.getD beatInBar 1)
  let click := if s.accents.getD beatInBar false then
      Click.hard (9 / 10 * vol)
    else
      Click.soft (6 / 10 * vol)
  let bar' := if beatInBar = 0 then s.currentBar + 1 else s.currentBar
  ((beatInBar, bar'), click,
    { s with currentBar := bar', currentBeat := s.currentBeat + 1 })

/-- Run the loop callback `n` times, collecting the notified
`(beatInBar, barIndex)` pairs in order. -/
def metRun : ℕ → MetState → List (ℕ × ℕ) × MetState
  | 0, s => ([], s)
  | n + 1, s =>
    let r := metTick s
    let rest := metRun n r.2.2
    (r.1 :: rest.1, rest.2)

/-- The sampler module function `ensureAudioStarted` (sampler.ts lines 131–137):
an async function that attempts `Tone.start()` (swallowing any error) and
has no return statement, hence always resolves to `undefined` — whether or
not the unlock attempt succeeded. -/
def ensureAudioStarted (_unlockOk : Bool) : JsVal := JsVal.undef

/-- The metronome `start()` (metronome.ts lines 48–59):
awaits `ensureAudioStarted()`, early-returns when the awaited value is
falsy, otherwise initializes, resets both counters, starts the loop and
sets `isRunning`.  The second component is the value `start()` itself
resolves to (an async function with no return statement). -/
def metStart (unlockOk : Bool) (s : MetState) : MetState × JsVal :=
  let ready := ensureAudioStarted unlockOk
  if jsTruthy ready = false then (s, JsVal.undef)
  else
    ({ s with currentBeat := 0, currentBar := 0, isRunning := true },
      JsVal.undef)

/-- Clamp and floor for `setBeatsPerBar`:
`Math.max(1, Math.min(12, Math.floor(next)))`, as a natural number. -/
def bpbClamp (next : ℚ) : ℕ := (max 1 (min 12 ⌊next⌋)).toNat

/-- Resize a list to length `n`: the JS idiom
`new Array(n).fill(dflt)` followed by copying `old[i]` for
`i < Math.min(old.length, n)`. -/
def resizeFill {α : Type} : List α → ℕ → α → List α
  | _, 0, _ => []
  | [], n + 1, d => d :: resizeFill [] n d
  | a :: as, n + 1, d => a :: resizeFill as n d

/-- Source `setBeatsPerBar(next)` (metronome.ts lines 77–88): clamps into
`[1,12]` after flooring, then resizes `accents` (default `false`) and
`volumes` (default `1`) preserving existing values by index. -/
def setBeatsPerBar (next : ℚ) (s : MetState) : MetState :=
  let b := bpbClamp next
  { s with
    beatsPerBar := b
    accents := resizeFill s.accents b false
    volumes := resizeFill s.volumes b 1 }

theorem resizeFill_length {α : Type} (l : List α) (n : ℕ) (d : α) :
    (resizeFill l n d).length = n := by
  induction n generalizing l with
  | zero => cases l <;> simp [resizeFill]
  | succ n ih => cases l <;> simp [resizeFill, ih]

theorem resizeFill_getD_lt {α : Type} (l : List α) (n : ℕ) (d : α)
    (i : ℕ) (hi : i < l.length) (hn : i < n) :
    (resizeFill l n d).getD i d = l.getD i d := by
  induction n generalizing l i with
  | zero => omega
  | succ n ih =>
    cases l with
    | nil => simp at hi
    | cons a as =>
      cases i with
      | zero => simp [resizeFill]
      | succ i =>
        simp only [resizeFill, List.getD_cons_succ]
        exact ih as i (by simpa using hi) (by omega)

theorem resizeFill_getD_ge {α : Type} (l : List α) (n : ℕ) (d : α)
    (i : ℕ) (hi : l.length ≤ i) (hn : i < n) :
    (resizeFill l n d).getD i d = d := by
  induction n generalizing l i with
  | zero => omega
  | succ n ih =>
    cases l with
    | nil =>
      cases i with
      | zero => simp [resizeFill]
      | succ i =>
        simp only [resizeFill, List.getD_cons_succ]
        exact ih [] i (by simp) (by omega)
    | cons a as =>
      cases i with
      | zero => simp at hi
      | succ i =>
        simp only [resizeFill, List.getD_cons_succ]
        exact ih as i (by simpa using hi) (by omega)

/-- Claim C3: with `beatsPerBar = 4` and counters reset to zero, running the
scheduler tick 8 times notifies beat-in-bar indices `[0,1,2,3,0,1,2,3]` and
bar indices `[1,1,1,1,2,2,2,2]`; in general the bar counter increments
exactly on those ticks whose beat-in-bar index is 0 and on no other tick. -/
theorem scheduler_tick_counting :
    ((metRun 8 metInit0).1.map Prod.fst = [0, 1, 2, 3, 0, 1, 2, 3] ∧
      (metRun 8 metInit0).1.map Prod.snd = [1, 1, 1, 1, 2, 2, 2, 2]) ∧
    ∀ s : MetState, 1 ≤ s.beatsPerBar →
      ((metTick s).2.2.currentBar = s.currentBar + 1 ↔ (metTick s).1.1 = 0) ∧
      ((metTick s).1.1 ≠ 0 → (metTick s).2.2.currentBar = s.currentBar) := by
  refine ⟨by decide, ?_⟩
  intro s _hs
  unfold metTick
  by_cases h : s.currentBeat % s.beatsPerBar = 0 <;> simp [h]

theorem scheduler_tick_counting_witness :
    1 ≤ metInit0.beatsPerBar ∧
    ((metTick metInit0).2.2.currentBar = metInit0.currentBar + 1 ↔
      (metTick metInit0).1.1 = 0) ∧
    ((metTick metInit0).1.1 ≠ 0 →
      (metTick metInit0).2.2.currentBar = metInit0.currentBar) :=
  ⟨by decide, scheduler_tick_counting.2 metInit0 (by decide)⟩

/-- Claim C4 (code bug): `start()` never starts the scheduler, whatever the
unlock outcome.  `ensureAudioStarted` is an async function with no return
statement, so `ready` is always `undefined` and the `if (!ready) return`
guard always fires: the state is untouched (counters not reset, loop not
started, `isRunning` stays false), and `start()` resolves to `undefined`
on every path, reporting nothing to the caller. -/
theorem metronome_start_never_starts :
    (∀ (unlockOk : Bool) (s : MetState),
      (metStart unlockOk s).1 = s ∧ (metStart unlockOk s).2 = JsVal.undef) ∧
    (metStart true metInit0).1.isRunning = false := by
  exact ⟨fun _ _ => ⟨rfl, rfl⟩, rfl⟩

/-- Claim C7: `setBeatsPerBar(n)` stores `n` clamped into `[1,12]`; both the
accent and volume arrays are resized to that length; every index below both
the old and new lengths keeps its previous value; every new index holds
accent `false` and volume `1`. -/
theorem setBeatsPerBar_resizes (next : ℚ) (s : MetState) :
    (setBeatsPerBar next s).beatsPerBar = (max 1 (min 12 ⌊next⌋)).toNat ∧
    (setBeatsPerBar next s).accents.length = (setBeatsPerBar next s).beatsPerBar ∧
    (setBeatsPerBar next s).volumes.length = (setBeatsPerBar next s).beatsPerBar ∧
    (∀ i, i < s.accents.length → i < (setBeatsPerBar next s).beatsPerBar →
      (setBeatsPerBar next s).accents.getD i false = s.accents.getD i false) ∧
    (∀ i, i < s.volumes.length → i < (setBeatsPerBar next s).beatsPerBar →
      (setBeatsPerBar next s).volumes.getD i 1 = s.volumes.getD i 1) ∧
    (∀ i, s.accents.length ≤ i → i < (setBeatsPerBar next s).beatsPerBar →
      (setBeatsPerBar next s).accents.getD i false = false) ∧
    (∀ i, s.volumes.length ≤ i → i < (setBeatsPerBar next s).beatsPerBar →
      (setBeatsPerBar next s).volumes.getD i 1 = 1) := by
  refine ⟨rfl, ?_, ?_, ?_, ?_, ?_, ?_⟩
  · simp [setBeatsPerBar, resizeFill_length]
  · simp [setBeatsPerBar, resizeFill_length]
  · intro i hi hb
    exact resizeFill_getD_lt s.accents (bpbClamp next) false i hi hb
  · intro i hi hb
    exact resizeFill_getD_lt s.volumes (bpbClamp next) 1 i hi hb
  · intro i hi hb
    exact resizeFill_getD_ge s.accents (bpbClamp next) false i hi hb
  · intro i hi hb
    exact resizeFill_getD_ge s.volumes (bpbClamp next) 1 i hi hb

theorem setBeatsPerBar_resizes_witness :
    (setBeatsPerBar 6 metInit0).beatsPerBar = (max 1 (min 12 ⌊(6 : ℚ)⌋)).toNat ∧
    (0 < metInit0.accents.length ∧ 0 < (setBeatsPerBar 6 metInit0).beatsPerBar ∧
      (setBeatsPerBar 6 metInit0).accents.getD 0 false = metInit0.accents.getD 0 false) ∧
    (metInit0.volumes.length ≤ 5 ∧ 5 < (setBeatsPerBar 6 metInit0).beatsPerBar ∧
      (setBeatsPerBar 6 metInit0).volumes.getD 5 1 = 1) :=
  ⟨(setBeatsPerBar_resizes 6 metInit0).1,
    ⟨by decide, by decide,
      (setBeatsPerBar_resizes 6 metInit0).2.2.2.1 0 (by decide) (by decide)⟩,
    ⟨by decide, by decide,
      (setBeatsPerBar_resizes 6 metInit0).2.2.2.2.2.2 5 (by decide) (by decide)⟩⟩

/-! ## Binding resolver: src/components/MidiSampler.tsx

The binding table is `PadBindings = Record<number, PadBinding>`, a JS
object keyed by the default MIDI note of the target pad.  We model it as an
association list in object-entry order; `Object.entries` iteration and
`{ ...prev, [t]: v }` updates are `List.find?`/`setEntry` below. -/

/-- The binding record of one target: `{ keys: string[]; midis: number[]; ccs: number[] }`. -/
structure PadBinding where
  keys : List String
  midis : List ℕ
  ccs : List ℕ
  deriving Repr, DecidableEq

/-- The record with all three lists empty. -/
def emptyBinding : PadBinding := ⟨[], [], []⟩

/-- Source `normalizeBinding` (MidiSampler.tsx lines 31–37) on a present-or-absent
record: an absent entry yields the empty record. -/
def normalizeBinding : Option PadBinding → PadBinding
  | none => emptyBinding
  | some b => b

/-- The binding table, keyed by target default MIDI note. -/
abbrev Table : Type := List (ℕ × PadBinding)

/-- Read `bindings[t]` from the table. -/
def lookupBinding (tbl : Table) (t : ℕ) : Option PadBinding :=
  (List.find? (fun e => e.1 == t) tbl).map Prod.snd

/-- The JS update `{ ...prev, [t]: b }`: replaces the entry for key `t`
when present, otherwise appends it. -/
def setEntry (tbl : Table) (t : ℕ) (b : PadBinding) : Table :=
  if List.any tbl (fun e => e.1 == t) then
    List.map (fun e => if e.1 == t then (t, b) else e) tbl
  else tbl ++ [(t, b)]

/-- Default MIDI note numbers of all pads, in `listDrumPads` order
(sampler.ts `MidiDrum`): Kick 36, Snare 38, Stick 37, HiHatClosed 42,
HiHatPedal 44, HiHatOpen 46, Crash 49, Ride 51, TomHigh 48, TomMid 45,
TomFloor 41.  `defaultMidiSetRef` holds this set. -/
def gmDefaults : List ℕ := [36, 38, 37, 42, 44, 46, 49, 51, 48, 45, 41]

/-- The key-capture commit (MidiSampler.tsx lines 463–479): on the next
keydown with key `k`, report a conflict (second component `true`) when some
other target already binds `k`, otherwise add `k` to the key list of the target
if not already present.  Returns the (possibly) updated table. -/
def commitKeyCapture (tbl : Table) (t : ℕ) (k : String) : Table × Bool :=
  if List.any tbl (fun e => e.1 != t && e.2.keys.contains k) then (tbl, true)
  else
    let cur := normalizeBinding (lookupBinding tbl t)
    if k ∈ cur.keys then (tbl, false)
    else (setEntry tbl t { cur with keys := cur.keys ++ [k] }, false)

/-- The MIDI-note capture commit (MidiSampler.tsx lines 101–135): first
scan for another target whose extra-note list holds `note`; then treat a
GM default note of a different pad as owned by that pad; a conflict leaves
the table unchanged and reports the owner (second component).  A note equal
to the own default of the target is ignored; an already-present note is kept;
otherwise the note is appended to the extra-note list of the target. -/
def commitMidiCapture (defaults : List ℕ) (tbl : Table) (t note : ℕ) :
    Table × Option ℕ :=
  match List.find? (fun e => e.1 != t && e.2.midis.contains note) tbl with
  | some e => (tbl, some e.1)
  | none =>
    if defaults.contains note && note != t then (tbl, some note)
    else if note = t then (tbl, none)
    else
      let cur := normalizeBinding (lookupBinding tbl t)
      if note ∈ cur.midis then (tbl, none)
      else (setEntry tbl t { cur with midis := cur.midis ++ [note] }, none)

/-- The MIDI-CC capture commit (MidiSampler.tsx lines 159–184): conflict
when another target already binds the controller number, otherwise add it
if not present.  No default reservation exists for controller numbers. -/
def commitCcCapture (tbl : Table) (t cc : ℕ) : Table × Option ℕ :=
  match List.find? (fun e => e.1 != t && e.2.ccs.contains cc) tbl with
  | some e => (tbl, some e.1)
  | none =>
    let cur := normalizeBinding (lookupBinding tbl t)
    if cc ∈ cur.ccs then (tbl, none)
    else (setEntry tbl t { cur with ccs := cur.ccs ++ [cc] }, none)

/-- Key chip removal (MidiSampler.tsx lines 492–496):
`{ ...bindings, [t]: { ...cur, keys: cur.keys.filter(x => x !== k) } }`. -/
def removeKeyBinding (tbl : Table) (t : ℕ) (k : String) : Table :=
  let cur := normalizeBinding (lookupBinding tbl t)
  setEntry tbl t { cur with keys := cur.keys.filter (fun x => x != k) }

/-- Extra-note chip removal (MidiSampler.tsx lines 543–547). -/
def removeMidiBinding (tbl : Table) (t note : ℕ) : Table :=
  let cur := normalizeBinding (lookupBinding tbl t)
  setEntry tbl t { cur with midis := cur.midis.filter (fun x => x != note) }

/-- Controller chip removal (MidiSampler.tsx lines 591–595). -/
def removeCcBinding (tbl : Table) (t cc : ℕ) : Table :=
  let cur := normalizeBinding (lookupBinding tbl t)
  setEntry tbl t { cur with ccs := cur.ccs.filter (fun x => x != cc) }

/-- One binding-resolver mutation: a capture commit or a chip removal. -/
inductive BindOp where
  | addKey (t : ℕ) (k : String)
  | addMidi (t note : ℕ)
  | addCc (t cc : ℕ)
  | removeKey (t : ℕ) (k : String)
  | removeMidi (t note : ℕ)
  | removeCc (t cc : ℕ)
  deriving Repr, DecidableEq

/-- Apply one mutation to the table (conflict reports discarded). -/
def applyBindOp (defaults : List ℕ) : BindOp → Table → Table
  | BindOp.addKey t k, tbl => (commitKeyCapture tbl t k).1
  | BindOp.addMidi t n, tbl => (commitMidiCapture defaults tbl t n).1
  | BindOp.addCc t c, tbl => (commitCcCapture tbl t c).1
  | BindOp.removeKey t k, tbl => removeKeyBinding tbl t k
  | BindOp.removeMidi t n, tbl => removeMidiBinding tbl t n
  | BindOp.removeCc t c, tbl => removeCcBinding tbl t c

/-- Apply a sequence of mutations in order. -/
def applyBindOps (defaults : List ℕ) (ops : List BindOp) (tbl : Table) : Table :=
  ops.foldl (fun acc op => applyBindOp defaults op acc) tbl

/-- Uniqueness of one projected list across distinct targets. -/
def UniqOn {α : Type} (sel : PadBinding → List α) (tbl : Table) : Prop :=
  ∀ e1 ∈ tbl, ∀ e2 ∈ tbl, e1.1 ≠ e2.1 → ∀ v, v ∈ sel e1.2 → v ∉ sel e2.2

/-- The binding-table uniqueness invariant: no key, no MIDI note, and no
controller number appears under two different targets. -/
def UniqueTable (tbl : Table) : Prop :=
  UniqOn PadBinding.keys tbl ∧ UniqOn PadBinding.midis tbl ∧
    UniqOn PadBinding.ccs tbl

instance {α : Type} [DecidableEq α] (sel : PadBinding → List α) (tbl : Table) :
    Decidable (UniqOn sel tbl) := by
  unfold UniqOn
  infer_instance

instance (tbl : Table) : Decidable (UniqueTable tbl) := by
  unfold UniqueTable
  infer_instance

theorem mem_setEntry {tbl : Table} {t : ℕ} {b : PadBinding}
    {e : ℕ × PadBinding} (he : e ∈ setEntry tbl t b) :
    e = (t, b) ∨ (e ∈ tbl ∧ e.1 ≠ t) := by
  unfold setEntry at he
  split at he
  next hany =>
    rcases List.mem_map.mp he with ⟨a, ha, hfa⟩
    by_cases hat : (a.1 == t) = true
    · left
      rw [if_pos hat] at hfa
      exact hfa.symm
    · right
      rw [if_neg hat] at hfa
      subst hfa
      exact ⟨ha, by simpa using hat⟩
  next hany =>
    rcases List.mem_append.mp he with h1 | h1
    · refine Or.inr ⟨h1, fun het => hany ?_⟩
      exact List.any_eq_true.mpr ⟨e, h1, by simpa using het⟩
    · left
      simpa using h1

theorem lookupBinding_mem {tbl : Table} {t : ℕ} {b : PadBinding}
    (h : lookupBinding tbl t = some b) : (t, b) ∈ tbl := by
  unfold lookupBinding at h
  rcases Option.map_eq_some'.mp h with ⟨e, hfind, hsnd⟩
  have hmem := List.mem_of_find?_eq_some hfind
  have hp : e.1 = t := by simpa using List.find?_some hfind
  have he : e = (t, b) := by
    cases e
    simp_all
  rw [← he]
  exact hmem

theorem uniqOn_lookup_not_mem {α : Type} {sel : PadBinding → List α}
    (hsel : sel emptyBinding = []) {tbl : Table} {t : ℕ}
    (h : UniqOn sel tbl) {v : α}
    (hv : v ∈ sel (normalizeBinding (lookupBinding tbl t)))
    {e : ℕ × PadBinding} (he : e ∈ tbl) (hne : e.1 ≠ t) : v ∉ sel e.2 := by
  cases hl : lookupBinding tbl t with
  | none =>
    rw [hl] at hv
    rw [show normalizeBinding none = emptyBinding from rfl, hsel] at hv
    exact absurd hv (List.not_mem_nil v)
  | some b =>
    rw [hl] at hv
    exact h (t, b) (lookupBinding_mem hl) e he (Ne.symm hne) v hv

theorem uniqOn_setEntry {α : Type} {sel : PadBinding → List α} {tbl : Table}
    {t : ℕ} {b' : PadBinding} (h : UniqOn sel tbl)
    (hnew : ∀ v ∈ sel b', ∀ e ∈ tbl, e.1 ≠ t → v ∉ sel e.2) :
    UniqOn sel (setEntry tbl t b') := by
  intro e1 he1 e2 he2 hne v hv1
  rcases mem_setEntry he1 with h1 | ⟨h1, h1t⟩ <;>
    rcases mem_setEntry he2 with h2 | ⟨h2, h2t⟩
  · subst h1; subst h2
    exact absurd rfl hne
  · subst h1
    exact hnew v hv1 e2 h2 h2t
  · subst h2
    intro hv2
    exact hnew v hv2 e1 h1 h1t hv1
  · exact h e1 h1 e2 h2 hne v hv1

theorem uniqueTable_commitKey (tbl : Table) (t : ℕ) (k : String)
    (h : UniqueTable tbl) : UniqueTable (commitKeyCapture tbl t k).1 := by
  obtain ⟨hk, hm, hc⟩ := h
  simp only [commitKeyCapture]
  split
  · exact ⟨hk, hm, hc⟩
  next hconf =>
    split
    · exact ⟨hk, hm, hc⟩
    next hkmem =>
      refine ⟨?_, ?_, ?_⟩
      · apply uniqOn_setEntry hk
        intro v hv e he het
        rcases List.mem_append.mp hv with hvc | hvk
        · exact uniqOn_lookup_not_mem rfl hk hvc he het
        · have hvk' : v = k := by simpa using hvk
          subst hvk'
          intro hv2
          exact hconf (List.any_eq_true.mpr ⟨e, he, by simp [het, hv2]⟩)
      · apply uniqOn_setEntry hm
        intro v hv e he het
        exact uniqOn_lookup_not_mem rfl hm hv he het
      · apply uniqOn_setEntry hc
        intro v hv e he het
        exact uniqOn_lookup_not_mem rfl hc hv he het

theorem uniqueTable_commitMidi (defaults : List ℕ) (tbl : Table) (t note : ℕ)
    (h : UniqueTable tbl) :
    UniqueTable (commitMidiCapture defaults tbl t note).1 := by
  obtain ⟨hk, hm, hc⟩ := h
  simp only [commitMidiCapture]
  split
  · exact ⟨hk, hm, hc⟩
  next hfind =>
    split
    · exact ⟨hk, hm, hc⟩
    split
    · exact ⟨hk, hm, hc⟩
    split
    · exact ⟨hk, hm, hc⟩
    refine ⟨?_, ?_, ?_⟩
    · apply uniqOn_setEntry hk
      intro v hv e he het
      exact uniqOn_lookup_not_mem rfl hk hv he het
    · apply uniqOn_setEntry hm
      intro v hv e he het
      rcases List.mem_append.mp hv with hvc | hvn
      · exact uniqOn_lookup_not_mem rfl hm hvc he het
      · have hvn' : v = note := by simpa using hvn
        subst hvn'
        intro hv2
        have : (fun e : ℕ × PadBinding =>
            e.1 != t && e.2.midis.contains v) e = true := by
          simp [het, hv2]
        rw [List.find?_eq_none] at hfind
        exact hfind e he this
    · apply uniqOn_setEntry hc
      intro v hv e he het
      exact uniqOn_lookup_not_mem rfl hc hv he het

theorem uniqueTable_commitCc (tbl : Table) (t cc : ℕ)
    (h : UniqueTable tbl) : UniqueTable (commitCcCapture tbl t cc).1 := by
  obtain ⟨hk, hm, hc⟩ := h
  simp only [commitCcCapture]
  split
  · exact ⟨hk, hm, hc⟩
  next hfind =>
    split
    · exact ⟨hk, hm, hc⟩
    refine ⟨?_, ?_, ?_⟩
    · apply uniqOn_setEntry hk
      intro v hv e he het
      exact uniqOn_lookup_not_mem rfl hk hv he het
    · apply uniqOn_setEntry hm
      intro v hv e he het
      exact uniqOn_lookup_not_mem rfl hm hv he het
    · apply uniqOn_setEntry hc
      intro v hv e he het
      rcases List.mem_append.mp hv with hvc | hvn
      · exact uniqOn_lookup_not_mem rfl hc hvc he het
      · have hvn' : v = cc := by simpa using hvn
        subst hvn'
        intro hv2
        have : (fun e : ℕ × PadBinding =>
            e.1 != t && e.2.ccs.contains v) e = true := by
          simp [het, hv2]
        rw [List.find?_eq_none] at hfind
        exact hfind e he this

theorem uniqueTable_removeKey (tbl : Table) (t : ℕ) (k : String)
    (h : UniqueTable tbl) : UniqueTable (removeKeyBinding tbl t k) := by
  obtain ⟨hk, hm, hc⟩ := h
  simp only [removeKeyBinding]
  refine ⟨?_, ?_, ?_⟩
  · apply uniqOn_setEntry hk
    intro v hv e he het
    exact uniqOn_lookup_not_mem rfl hk (List.mem_of_mem_filter hv) he het
  · apply uniqOn_setEntry hm
    intro v hv e he het
    exact uniqOn_lookup_not_mem rfl hm hv he het
  · apply uniqOn_setEntry hc
    intro v hv e he het
    exact uniqOn_lookup_not_mem rfl hc hv he het

theorem uniqueTable_removeMidi (tbl : Table) (t note : ℕ)
    (h : UniqueTable tbl) : UniqueTable (removeMidiBinding tbl t note) := by
  obtain ⟨hk, hm, hc⟩ := h
  simp only [removeMidiBinding]
  refine ⟨?_, ?_, ?_⟩
  · apply uniqOn_setEntry hk
    intro v hv e he het
    exact uniqOn_lookup_not_mem rfl hk hv he het
  · apply uniqOn_setEntry hm
    intro v hv e he het
    exact uniqOn_lookup_not_mem rfl hm (List.mem_of_mem_filter hv) he het
  · apply uniqOn_setEntry hc
    intro v hv e he het
    exact uniqOn_lookup_not_mem rfl hc hv he het

theorem uniqueTable_removeCc (tbl : Table) (t cc : ℕ)
    (h : UniqueTable tbl) : UniqueTable (removeCcBinding tbl t cc) := by
  obtain ⟨hk, hm, hc⟩ := h
  simp only [removeCcBinding]
  refine ⟨?_, ?_, ?_⟩
  · apply uniqOn_setEntry hk
    intro v hv e he het
    exact uniqOn_lookup_not_mem rfl hk hv he het
  · apply uniqOn_setEntry hm
    intro v hv e he het
    exact uniqOn_lookup_not_mem rfl hm hv he het
  · apply uniqOn_setEntry hc
    intro v hv e he het
    exact uniqOn_lookup_not_mem rfl hc (List.mem_of_mem_filter hv) he het

theorem uniqueTable_applyBindOp (defaults : List ℕ) (op : BindOp)
    (tbl : Table) (h : UniqueTable tbl) :
    UniqueTable (applyBindOp defaults op tbl) := by
  cases op with
  | addKey t k => exact uniqueTable_commitKey tbl t k h
  | addMidi t n => exact uniqueTable_commitMidi defaults tbl t n h
  | addCc t c => exact uniqueTable_commitCc tbl t c h
  | removeKey t k => exact uniqueTable_removeKey tbl t k h
  | removeMidi t n => exact uniqueTable_removeMidi tbl t n h
  | removeCc t c => exact uniqueTable_removeCc tbl t c h

/-- Claim C1: starting from a table in which no key identifier, MIDI note
number, or MIDI controller number appears under more than one target, after
any sequence of capture-commit and remove operations no key, MIDI note, or
controller number is bound to two different targets simultaneously. -/
theorem binding_uniqueness_invariant (ops : List BindOp) (tbl : Table)
    (h : UniqueTable tbl) : UniqueTable (applyBindOps gmDefaults ops tbl) := by
  induction ops generalizing tbl with
  | nil => exact h
  | cons op rest ih =>
    exact ih (applyBindOp gmDefaults op tbl)
      (uniqueTable_applyBindOp gmDefaults op tbl h)

theorem binding_uniqueness_invariant_witness :
    UniqueTable ([] : Table) ∧
    UniqueTable (applyBindOps gmDefaults
      [BindOp.addKey 36 "a", BindOp.addMidi 38 60, BindOp.addCc 42 64,
        BindOp.addKey 38 "a", BindOp.removeKey 36 "a"] []) :=
  ⟨by decide, binding_uniqueness_invariant
    [BindOp.addKey 36 "a", BindOp.addMidi 38 60, BindOp.addCc 42 64,
      BindOp.addKey 38 "a", BindOp.removeKey 36 "a"] [] (by decide)⟩

/-- Claim C5: a MIDI note equal to the reserved default of some pad can never be
added as an extra binding for a different target — the capture reports a
conflict owned by that pad and leaves the table unchanged; a captured note
equal to the own default of the capture target is silently ignored (table unchanged, no
conflict reported).  The table is assumed not to hold the probed notes as
extra bindings of other targets, which is how every table reachable from an
empty or persisted-valid one looks. -/
theorem midi_default_reservation (tbl : Table) (t d : ℕ)
    (hd : d ∈ gmDefaults) (_ht : t ∈ gmDefaults) (htd : t ≠ d)
    (ha : ∀ e ∈ tbl, e.1 = t ∨ d ∉ e.2.midis)
    (hb : ∀ e ∈ tbl, e.1 = t ∨ t ∉ e.2.midis) :
    commitMidiCapture gmDefaults tbl t d = (tbl, some d) ∧
    commitMidiCapture gmDefaults tbl t t = (tbl, none) := by
  have hfa : List.find? (fun e => e.1 != t && e.2.midis.contains d) tbl
      = none := by
    rw [List.find?_eq_none]
    intro e he
    rcases ha e he with h1 | h1 <;> simp [h1]
  have hfb : List.find? (fun e => e.1 != t && e.2.midis.contains t) tbl
      = none := by
    rw [List.find?_eq_none]
    intro e he
    rcases hb e he with h1 | h1 <;> simp [h1]
  constructor
  · simp only [commitMidiCapture, hfa]
    have hcond : (gmDefaults.contains d && d != t) = true := by
      simp only [Bool.and_eq_true, bne_iff_ne, ne_eq]
      exact ⟨by simpa using hd, fun h => htd h.symm⟩
    rw [if_pos hcond]
  · simp only [commitMidiCapture, hfb]
    simp

theorem midi_default_reservation_witness :
    (42 ∈ gmDefaults ∧ 36 ∈ gmDefaults ∧ (36 : ℕ) ≠ 42) ∧
    commitMidiCapture gmDefaults [] 36 42 = ([], some 42) ∧
    commitMidiCapture gmDefaults [] 36 36 = ([], none) :=
  ⟨⟨by decide, by decide, by decide⟩,
    midi_default_reservation [] 36 42 (by decide) (by decide) (by decide)
      (by simp) (by simp)⟩

/-! ## Trigger engine: src/audio/sampler.ts -/

/-- Semantic drum pads (`enum DrumPad`). -/
inductive DrumPad where
  | Kick | Snare | Stick | HiHatClosed | HiHatOpen | HiHatPedal
  | Crash | Ride | TomHigh | TomMid | TomFloor
  deriving Repr, DecidableEq, Fintype

/-- Sample note names of the kit (`type NoteName`); `Ds2` is the source
sharp spelling of the note between D2 and E2, and so on. -/
inductive NoteName where
  | C2 | D2 | Ds2 | Fs2 | Gs2 | As2 | Cs3 | Cs4 | Ds3 | C3 | A2 | F2
  deriving Repr, DecidableEq

/-- The synthesized-fallback voice bank (`ensureSynth`): one shared metal
voice `hat` for all hi-hat variants, one `cym` for crash and ride. -/
inductive SynthVoice where
  | kick | snare | hat | cym | tomHigh | tomMid | tomFloor
  deriving Repr, DecidableEq

/-- A live voice: a sampler note in `Sampled` mode, a synth unit in
fallback mode. -/
inductive AVoice where
  | sample (n : NoteName)
  | synth (v : SynthVoice)
  deriving Repr, DecidableEq

/-- Tempo-relative duration tokens passed to `triggerAttackRelease`, plus
literal second counts (used for the fallback hat, whose duration equals its
decay). -/
inductive NoteDur where
  | n2 | n8 | n16 | seconds (q : ℚ)
  deriving Repr, DecidableEq

/-- One scheduled audio command issued by `triggerPad`/`chokeHiHatAll`.
Frequency arguments (50 Hz kick, 220/180/140 Hz toms) are omitted: they
select no voice and carry no choke semantics. -/
inductive ACmd where
  | attack (v : AVoice) (gain : ℚ)
  | release (v : AVoice)
  | releaseAt (v : AVoice) (delay : ℚ)
  | attackRel (v : AVoice) (dur : NoteDur) (gain : ℚ)
  | setDecay (v : AVoice) (decay : ℚ)
  deriving Repr, DecidableEq

/-- Source `BASIC_MAP_PAD` plus the `padToNoteName` special case: Crash plays the
18-inch sample `C#3`; HiHatPedal is absent from the map (the TS cast hides
a lookup that yields `undefined`), hence `none`. -/
def padToNoteName : DrumPad → Option NoteName
  | DrumPad.Kick => some NoteName.C2
  | DrumPad.Snare => some NoteName.D2
  | DrumPad.Stick => some NoteName.Ds2
  | DrumPad.HiHatClosed => some NoteName.Fs2
  | DrumPad.HiHatOpen => some NoteName.As2
  | DrumPad.HiHatPedal => none
  | DrumPad.Crash => some NoteName.Cs3
  | DrumPad.Ride => some NoteName.Ds3
  | DrumPad.TomHigh => some NoteName.C3
  | DrumPad.TomMid => some NoteName.A2
  | DrumPad.TomFloor => some NoteName.F2

/-- Source `padToVoice`: which fallback synth voice renders the pad. -/
def padToVoice : DrumPad → SynthVoice
  | DrumPad.Kick => SynthVoice.kick
  | DrumPad.Snare => SynthVoice.snare
  | DrumPad.HiHatOpen => SynthVoice.hat
  | DrumPad.HiHatClosed => SynthVoice.hat
  | DrumPad.HiHatPedal => SynthVoice.hat
  | DrumPad.Crash => SynthVoice.cym
  | DrumPad.Ride => SynthVoice.cym
  | DrumPad.TomHigh => SynthVoice.tomHigh
  | DrumPad.TomMid => SynthVoice.tomMid
  | DrumPad.TomFloor => SynthVoice.tomFloor
  | DrumPad.Stick => SynthVoice.snare

/-- Membership in the hi-hat monophonic group, the condition guarding the
`chokeHiHatAll()` call in `triggerPad`. -/
def hatGroup (p : DrumPad) : Bool :=
  p == DrumPad.HiHatClosed || p == DrumPad.HiHatOpen || p == DrumPad.HiHatPedal

/-- Source `chokeHiHatAll` (sampler.ts lines 352–367): in fallback mode, release
the shared `hat` synth; in `Sampled` mode, release the open (`A#2`) and
closed (`F#2`) sample notes — and only those. -/
def chokeCmds (fb : Bool) : List ACmd :=
  if fb then [ACmd.release (AVoice.synth SynthVoice.hat)]
  else
    [ACmd.release (AVoice.sample NoteName.As2),
      ACmd.release (AVoice.sample NoteName.Fs2)]

/-- Velocity normalization in `triggerPad`:
`Math.max(0, Math.min(1, velocity / 127))`. -/
def velNorm (velocity : ℕ) : ℚ := clamp01 ((velocity : ℚ) / 127)

/-- Fallback-mode rendering of one hit (the `useSynthFallback` branch of
`triggerPad`), as the sequence of Tone calls it makes. -/
def fallbackCmds (pad : DrumPad) (vel : ℚ) : List ACmd :=
  match padToVoice pad with
  | SynthVoice.kick =>
    [ACmd.attackRel (AVoice.synth SynthVoice.kick) NoteDur.n8 vel]
  | SynthVoice.snare =>
    [ACmd.attackRel (AVoice.synth SynthVoice.snare) NoteDur.n16 vel]
  | SynthVoice.hat =>
    if pad == DrumPad.HiHatOpen then
      [ACmd.setDecay (AVoice.synth SynthVoice.hat) (9 / 10),
        ACmd.attackRel (AVoice.synth SynthVoice.hat) (NoteDur.seconds (9 / 10))
          (1 / 2 + vel * (1 / 2))]
    else
      [ACmd.setDecay (AVoice.synth SynthVoice.hat) (16 / 100),
        ACmd.attackRel (AVoice.synth SynthVoice.hat) (NoteDur.seconds (16 / 100))
          (2 / 5 + vel * (3 / 5))]
  | SynthVoice.cym =>
    if pad == DrumPad.Crash then
      [ACmd.setDecay (AVoice.synth SynthVoice.cym) (8 / 5),
        ACmd.attackRel (AVoice.synth SynthVoice.cym) NoteDur.n2
          (2 / 5 + vel * (3 / 5))]
    else
      [ACmd.setDecay (AVoice.synth SynthVoice.cym) (3 / 5),
        ACmd.attackRel (AVoice.synth SynthVoice.cym) NoteDur.n8
          (2 / 5 + vel * (3 / 5))]
  | SynthVoice.tomHigh =>
    [ACmd.attackRel (AVoice.synth SynthVoice.tomHigh) NoteDur.n8 vel]
  | SynthVoice.tomMid =>
    [ACmd.attackRel (AVoice.synth SynthVoice.tomMid) NoteDur.n8 vel]
  | SynthVoice.tomFloor =>
    [ACmd.attackRel (AVoice.synth SynthVoice.tomFloor) NoteDur.n8 vel]

/-- Sampled-mode rendering of one hit: closed and pedal hats attack and
schedule an early release after `HH_CLOSED_RELEASE = 0.16` seconds, the
open hat rings its natural length, every other pad plays its mapped note. -/
def sampledCmds (pad : DrumPad) (vel : ℚ) : List ACmd :=
  if pad == DrumPad.HiHatClosed then
    [ACmd.attack (AVoice.sample NoteName.Fs2) vel,
      ACmd.releaseAt (AVoice.sample NoteName.Fs2) (16 / 100)]
  else if pad == DrumPad.HiHatOpen then
    [ACmd.attack (AVoice.sample NoteName.As2) vel]
  else if pad == DrumPad.HiHatPedal then
    [ACmd.attack (AVoice.sample NoteName.Gs2) vel,
      ACmd.releaseAt (AVoice.sample NoteName.Gs2) (16 / 100)]
  else
    match padToNoteName pad with
    | some n => [ACmd.attack (AVoice.sample n) vel]
    | none => []

/-- Source `triggerPad(pad, velocity)` as its command trace: choke the hi-hat
group first when the pad belongs to it, then render in the current engine
mode (`fb = true` means `SynthesizedFallback`). -/
def triggerCmds (fb : Bool) (pad : DrumPad) (velocity : ℕ) : List ACmd :=
  (if hatGroup pad then chokeCmds fb else []) ++
    (if fb then fallbackCmds pad (velNorm velocity)
      else sampledCmds pad (velNorm velocity))

/-- The voice named by a command. -/
def cmdVoice : ACmd → AVoice
  | ACmd.attack v _ => v
  | ACmd.release v => v
  | ACmd.releaseAt v _ => v
  | ACmd.attackRel v _ _ => v
  | ACmd.setDecay v _ => v

/-- Whether a command starts a voice ringing. -/
def isAttack : ACmd → Bool
  | ACmd.attack _ _ => true
  | ACmd.attackRel _ _ _ => true
  | _ => false

/-- Semantics of one command on the set of currently-ringing voices.
Scheduled future releases (`releaseAt`) do not silence anything at the
moment considered here: the point of choke is to act before they fall due. -/
def applyACmd (ringing : List AVoice) : ACmd → List AVoice
  | ACmd.attack v _ => ringing.insert v
  | ACmd.attackRel v _ _ => ringing.insert v
  | ACmd.release v => ringing.erase v
  | ACmd.releaseAt _ _ => ringing
  | ACmd.setDecay _ _ => ringing

def applyACmds (cmds : List ACmd) (ringing : List AVoice) : List AVoice :=
  cmds.foldl applyACmd ringing

/-- The commands a trigger issues before its first attack (its choke part). -/
def chokePart (cmds : List ACmd) : List ACmd :=
  cmds.takeWhile (fun c => !isAttack c)

/-- The voice a trigger starts. -/
def hitVoice (fb : Bool) (pad : DrumPad) (velocity : ℕ) : Option AVoice :=
  ((triggerCmds fb pad velocity).find? isAttack).map cmdVoice

/-- Choke correctness for an ordered pair of hits: after triggering `p1`
from silence, the commands `p2` issues before its own attack remove the
voice `p1` started from the ringing set. -/
def chokedBeforeB (fb : Bool) (p1 p2 : DrumPad) (v1 v2 : ℕ) : Bool :=
  match hitVoice fb p1 v1 with
  | none => true
  | some w =>
    !(applyACmds (chokePart (triggerCmds fb p2 v2))
        (applyACmds (triggerCmds fb p1 v1) [])).contains w

set_option maxHeartbeats 2000000 in
theorem chokedBeforeB_vel (fb : Bool) (p1 p2 : DrumPad) (v1 v2 : ℕ) :
    chokedBeforeB fb p1 p2 v1 v2 = chokedBeforeB fb p1 p2 0 0 := by
  cases fb <;> cases p1 <;> cases p2 <;> rfl

/-- Claim C2 counterexample: in `Sampled` mode, triggering `HiHatPedal`
and then `HiHatClosed` does not release the ringing pedal voice before
the closed hit — `chokeHiHatAll` releases only `A#2` and `F#2`, never the
pedal note `G#2`. -/
theorem hihat_choke_counterexample :
    hatGroup DrumPad.HiHatPedal = true ∧ hatGroup DrumPad.HiHatClosed = true ∧
    DrumPad.HiHatPedal ≠ DrumPad.HiHatClosed ∧
    chokedBeforeB false DrumPad.HiHatPedal DrumPad.HiHatClosed 100 90 = false := by
  decide

/-- Claim C2 (amended): for every ordered pair of distinct hi-hat-group
pads, triggering the second releases the ringing voice of the first before
rendering, in `SynthesizedFallback` mode always, and in `Sampled` mode
whenever the first pad is not `HiHatPedal` (the pedal voice `G#2` is not
in the sampled choke-release set). -/
theorem hihat_choke_amended (fb : Bool) (p1 p2 : DrumPad) (v1 v2 : ℕ)
    (h1 : hatGroup p1 = true) (h2 : hatGroup p2 = true) (h3 : p1 ≠ p2)
    (h4 : fb = true ∨ p1 ≠ DrumPad.HiHatPedal) :
    chokedBeforeB fb p1 p2 v1 v2 = true := by
  rw [chokedBeforeB_vel fb p1 p2 v1 v2]
  revert h1 h2 h3 h4
  revert fb p1 p2
  decide

theorem hihat_choke_amended_witness :
    (hatGroup DrumPad.HiHatOpen = true ∧ hatGroup DrumPad.HiHatClosed = true ∧
      DrumPad.HiHatOpen ≠ DrumPad.HiHatClosed ∧
      ((false : Bool) = true ∨ DrumPad.HiHatOpen ≠ DrumPad.HiHatPedal)) ∧
    chokedBeforeB false DrumPad.HiHatOpen DrumPad.HiHatClosed 100 90 = true :=
  ⟨⟨rfl, rfl, by decide, Or.inr (by decide)⟩,
    hihat_choke_amended false DrumPad.HiHatOpen DrumPad.HiHatClosed 100 90
      rfl rfl (by decide) (Or.inr (by decide))⟩

/-! ## Engine mode lifecycle (sampler.ts module state) -/

/-- The mode-relevant sampler module state: the `useSynthFallback` flag
and the memoized `loaded` promise (`none` = never attempted, `some b` =
attempt finished with success `b`). -/
structure EngineState where
  fallbackFlag : Bool
  loaded : Option Bool
  deriving Repr, DecidableEq

/-- Module load state at startup: `useSynthFallback = false` (Sampled),
no load attempted. -/
def engineInit : EngineState := ⟨false, none⟩

/-- State effect of one `getDrumSampler()` call whose underlying sample
load (if one is actually started) finishes with outcome `ok`: in fallback
mode, or when the load promise is already memoized, nothing changes; a
first attempt memoizes its outcome, and a decode failure flips
`useSynthFallback` permanently (the `.catch` branch). -/
def getDrumSamplerStep (ok : Bool) (s : EngineState) : EngineState :=
  if s.fallbackFlag then s
  else
    match s.loaded with
    | some _ => s
    | none =>
      if ok then { fallbackFlag := false, loaded := some true }
      else { fallbackFlag := true, loaded := some false }

/-- Reachable operations touching the engine mode: a direct
`getDrumSampler()` call, a `triggerPad` (which awaits `getDrumSampler`
before rendering), and an `isUsingFallback()` query. -/
inductive EngineOp where
  | load (ok : Bool)
  | trigger (pad : DrumPad) (velocity : ℕ) (ok : Bool)
  | queryMode
  deriving Repr, DecidableEq

def engineStep : EngineOp → EngineState → EngineState
  | EngineOp.load ok, s => getDrumSamplerStep ok s
  | EngineOp.trigger _ _ ok, s => getDrumSamplerStep ok s
  | EngineOp.queryMode, s => s

def runEngine (ops : List EngineOp) (s : EngineState) : EngineState :=
  ops.foldl (fun acc op => engineStep op acc) s

/-- Claim C8: the engine mode starts `Sampled`; the first sample-load
failure sets it to `SynthesizedFallback`; and no sequence of further
operations ever clears the fallback flag again. -/
theorem engine_mode_lifecycle :
    engineInit.fallbackFlag = false ∧
    (∀ (s : EngineState) (p : DrumPad) (v : ℕ), s.fallbackFlag = false →
      s.loaded = none →
      (engineStep (EngineOp.load false) s).fallbackFlag = true ∧
      (engineStep (EngineOp.trigger p v false) s).fallbackFlag = true) ∧
    (∀ (ops : List EngineOp) (s : EngineState), s.fallbackFlag = true →
      (runEngine ops s).fallbackFlag = true) := by
  refine ⟨rfl, ?_, ?_⟩
  · intro s p v h1 h2
    constructor <;> simp [engineStep, getDrumSamplerStep, h1, h2]
  · intro ops
    induction ops with
    | nil => intro s h; exact h
    | cons op rest ih =>
      intro s h
      apply ih
      cases op with
      | load ok => simp [engineStep, getDrumSamplerStep, h]
      | trigger p v ok => simp [engineStep, getDrumSamplerStep, h]
      | queryMode => exact h

theorem engine_mode_lifecycle_witness :
    (engineInit.fallbackFlag = false ∧ engineInit.loaded = none ∧
      (engineStep (EngineOp.load false) engineInit).fallbackFlag = true) ∧
    ((engineStep (EngineOp.load false) engineInit).fallbackFlag = true ∧
      (runEngine [EngineOp.load true, EngineOp.trigger DrumPad.Kick 100 true,
          EngineOp.queryMode]
        (engineStep (EngineOp.load false) engineInit)).fallbackFlag = true) :=
  ⟨⟨rfl, rfl,
      (engine_mode_lifecycle.2.1 engineInit DrumPad.Kick 100 rfl rfl).1⟩,
    ⟨by decide,
      engine_mode_lifecycle.2.2
        [EngineOp.load true, EngineOp.trigger DrumPad.Kick 100 true,
          EngineOp.queryMode]
        (engineStep (EngineOp.load false) engineInit) (by decide)⟩⟩

/-! ## Controller edge-triggering (MidiSampler.tsx CC listener, lines 156–204) -/

/-- Constant `CC_TRIGGER_THRESHOLD` (MidiSampler.tsx line 39). -/
def CC_TRIGGER_THRESHOLD : ℕ := 64

/-- Source `getResolvedIncomingCc`: the first table entry whose controller list
holds the incoming controller number resolves to the target of that entry;
otherwise `null`. -/
def ccResolve (tbl : Table) (cc : ℕ) : Option ℕ :=
  (List.find? (fun e => e.2.ccs.contains cc) tbl).map Prod.fst

/-- One controller-change event outside capture mode: compute the resolved
target, the down state (`val >= CC_TRIGGER_THRESHOLD`), remember it in
`ccDownRef.current[cc]`, and fire exactly when the controller is down, was
not down, and resolves to a bound target.  Returns whether a trigger fired
and the updated per-controller down map. -/
def ccStep (tbl : Table) (down : ℕ → Bool) (cc val : ℕ) :
    Bool × (ℕ → Bool) :=
  let resolved := ccResolve tbl cc
  let isDown := decide (CC_TRIGGER_THRESHOLD ≤ val)
  let wasDown := down cc
  (isDown && !wasDown && resolved.isSome,
    fun c => if c = cc then isDown else down c)

/-- Feed a sequence of values on one controller, collecting whether each
event fired a trigger. -/
def ccRunFires (tbl : Table) (cc : ℕ) : List ℕ → (ℕ → Bool) → List Bool
  | [], _ => []
  | v :: vs, down =>
    let r := ccStep tbl down cc v
    r.1 :: ccRunFires tbl cc vs r.2

theorem ccRunFires_char (tbl : Table) (cc : ℕ)
    (hres : (ccResolve tbl cc).isSome = true) :
    ∀ (vs : List ℕ) (b : ℕ → Bool) (i : ℕ), i < vs.length →
      ((ccRunFires tbl cc vs b).getD i false = true ↔
        (64 ≤ vs.getD i 0 ∧
          (if i = 0 then b cc = false else vs.getD (i - 1) 0 < 64))) := by
  intro vs
  induction vs with
  | nil => intro b i hi; simp at hi
  | cons v vs ih =>
    intro b i hi
    cases i with
    | zero =>
      simp [ccRunFires, ccStep, hres, CC_TRIGGER_THRESHOLD,
        Bool.and_eq_true, Bool.not_eq_true']
    | succ i =>
      have hi' : i < vs.length := by simpa using hi
      have := ih (fun c => if c = cc then decide (CC_TRIGGER_THRESHOLD ≤ v)
        else b c) i hi'
      simp only [ccRunFires, ccStep] at this ⊢
      rw [List.getD_cons_succ, this]
      cases i with
      | zero =>
        simp [CC_TRIGGER_THRESHOLD, Nat.lt_iff_add_one_le, Nat.not_le]
      | succ j => simp

/-- Claim C6: a trigger fires exactly when the incoming value reaches the
threshold 64 while the previous value on that controller was below it (with
no previous value counting as below); in particular feeding
`[0, 40, 70, 80, 30, 90]` on one bound controller fires exactly two
triggers, and a value dropping below the threshold never fires. -/
theorem cc_edge_trigger :
    ((ccRunFires [(36, ⟨[], [], [10]⟩)] 10 [0, 40, 70, 80, 30, 90]
        (fun _ => false)) = [false, false, true, false, false, true] ∧
      (ccRunFires [(36, ⟨[], [], [10]⟩)] 10 [0, 40, 70, 80, 30, 90]
        (fun _ => false)).count true = 2) ∧
    ∀ (tbl : Table) (cc : ℕ) (vs : List ℕ) (i : ℕ),
      (ccResolve tbl cc).isSome = true → i < vs.length →
      ((ccRunFires tbl cc vs (fun _ => false)).getD i false = true ↔
        (64 ≤ vs.getD i 0 ∧ (i = 0 ∨ vs.getD (i - 1) 0 < 64))) := by
  refine ⟨⟨by decide, by decide⟩, ?_⟩
  intro tbl cc vs i hres hi
  rw [ccRunFires_char tbl cc hres vs (fun _ => false) i hi]
  cases i with
  | zero => simp
  | succ j => simp

theorem cc_edge_trigger_witness :
    ((ccResolve [(36, ⟨[], [], [10]⟩)] 10).isSome = true ∧
      2 < ([0, 40, 70, 80, 30, 90] : List ℕ).length) ∧
    ((ccRunFires [(36, ⟨[], [], [10]⟩)] 10 [0, 40, 70, 80, 30, 90]
        (fun _ => false)).getD 2 false = true ↔
      (64 ≤ ([0, 40, 70, 80, 30, 90] : List ℕ).getD 2 0 ∧
        ((2 : ℕ) = 0 ∨ ([0, 40, 70, 80, 30, 90] : List ℕ).getD 1 0 < 64))) :=
  ⟨⟨by decide, by decide⟩,
    cc_edge_trigger.2 [(36, ⟨[], [], [10]⟩)] 10 [0, 40, 70, 80, 30, 90] 2
      (by decide) (by decide)⟩

/-! ## Persistence round-trip (MidiSampler.tsx lines 31–37, 252–296)

`persistBindings` writes `JSON.stringify(next)` under `drum_bindings_v1`;
the startup load parses it as `Record<number, Partial<PadBinding>>` and
passes each entry through `normalizeBinding`.  `JSON.stringify`/`JSON.parse`
on this plain record of string/number arrays is structure-preserving, so
the store is modelled as holding the parsed structure: a list of entries
whose three fields may each be absent (`Partial`). -/

/-- A stored entry as the load path sees it: `Partial<PadBinding>`. -/
structure StoredBinding where
  keys : Option (List String)
  midis : Option (List ℕ)
  ccs : Option (List ℕ)
  deriving Repr, DecidableEq

/-- Source `normalizeBinding` on a parsed partial record:
`binding?.keys ?? []` and so on.  (The table-side `normalizeBinding` above
is this same source function applied to present-or-absent full records.) -/
def normalizeStored (b : StoredBinding) : PadBinding :=
  ⟨b.keys.getD [], b.midis.getD [], b.ccs.getD []⟩

/-- Serialization performed by `persistBindings`: every field of every
entry is present in what `JSON.stringify` writes. -/
def storedOfBinding (b : PadBinding) : StoredBinding :=
  ⟨some b.keys, some b.midis, some b.ccs⟩

/-- The persisted form of a table, as re-parsed by the load path. -/
def persistTable (tbl : Table) : List (ℕ × StoredBinding) :=
  tbl.map (fun e => (e.1, storedOfBinding e.2))

/-- The startup load (MidiSampler.tsx lines 254–278): a present
`drum_bindings_v1` record wins and is normalized entry-wise; otherwise a
legacy `drum_keymap_v1` key map is migrated (keys wrapped with empty
note/controller sets); otherwise the table starts empty. -/
def loadTable (raw : Option (List (ℕ × StoredBinding)))
    (legacy : Option (List (ℕ × List String))) : Table :=
  match raw with
  | some parsed => parsed.map (fun e => (e.1, normalizeStored e.2))
  | none =>
    match legacy with
    | some parsed => parsed.map (fun e => (e.1, ⟨e.2, [], []⟩))
    | none => []

theorem normalizeStored_storedOfBinding (b : PadBinding) :
    normalizeStored (storedOfBinding b) = b := by
  cases b
  rfl

/-- Claim C9: serializing a binding table as the commit path does and
loading it back through the startup path yields the same table —
same targets with the same key, extra-note and controller lists. -/
theorem bindings_roundtrip (tbl : Table)
    (legacy : Option (List (ℕ × List String))) :
    loadTable (some (persistTable tbl)) legacy = tbl := by
  simp only [loadTable, persistTable, List.map_map]
  have : ((fun e : ℕ × StoredBinding => (e.1, normalizeStored e.2)) ∘
      fun e : ℕ × PadBinding => (e.1, storedOfBinding e.2)) = id := by
    funext e
    simp [normalizeStored_storedOfBinding]
  rw [this, List.map_id]

/-! ## Capture exclusivity (MidiSampler.tsx capture state)

The MIDI-note and MIDI-CC captures exist only as the state variables
`listenMidiForMidi` / `listenCcForMidi`: their handlers run under
`if (listenMidiForMidi != null ...)` / `if (listenCcForMidi != null ...)`,
so nulling the variable cancels the capture.  The key capture is
different: clicking Add-key registers a one-shot `keydown` listener
(`window.addEventListener('keydown', once, { once: true })`, line 479)
whose handler never reads `listenKeyForMidi` and which no code path ever
removes — `listenKeyForMidi` only styles the button.  The functional
pending key capture is therefore the armed listener, and nulling
`listenKeyForMidi` does not cancel it.  The state below carries both the
three listen variables and the list of armed one-shot listeners (each
remembering the target it captured at arming time). -/

/-- Capture state of the binding modal: the three listen-state variables
plus the armed one-shot `keydown` listeners, in registration order, each
holding the target pad recorded in its closure. -/
structure CaptureSt where
  listenKey : Option ℕ
  listenMidi : Option ℕ
  listenCc : Option ℕ
  armedKeyTargets : List ℕ
  deriving Repr, DecidableEq

/-- Initial state: nothing armed. -/
def capInit : CaptureSt := ⟨none, none, none, []⟩

/-- Operations on the capture state.
The three start operations are the Add-binding buttons (MidiSampler.tsx
lines 456–480, 520–528, 571–579): each nulls the other two listen
variables before arming its own, and Add-key additionally registers a
one-shot keydown listener; starting a MIDI or CC capture removes no
listener.  `keydown` is a keydown event: every armed one-shot listener
fires on it and unregisters (that is what `once: true` does), each
handler ending with `setListenKeyForMidi(null)`; without armed listeners
a keydown leaves the state alone.  `midiNoteEvent` / `ccEvent` are the
capture-consuming input events (commit or conflict both end with
`setListenXForMidi(null)`).  `cancelAll` is the modal close /
reset-bindings path: it nulls the three listen variables but removes no
armed listener (`removeEventListener` appears nowhere in the source). -/
inductive CapOp where
  | startKey (t : ℕ)
  | startMidi (t : ℕ)
  | startCc (t : ℕ)
  | keydown
  | midiNoteEvent
  | ccEvent
  | cancelAll
  deriving Repr, DecidableEq

def stepCap : CapOp → CaptureSt → CaptureSt
  | CapOp.startKey t, s => ⟨some t, none, none, s.armedKeyTargets ++ [t]⟩
  | CapOp.startMidi t, s => ⟨none, some t, none, s.armedKeyTargets⟩
  | CapOp.startCc t, s => ⟨none, none, some t, s.armedKeyTargets⟩
  | CapOp.keydown, s =>
    ⟨if s.armedKeyTargets.isEmpty then s.listenKey else none,
      s.listenMidi, s.listenCc, []⟩
  | CapOp.midiNoteEvent, s => { s with listenMidi := none }
  | CapOp.ccEvent, s => { s with listenCc := none }
  | CapOp.cancelAll, s => ⟨none, none, none, s.armedKeyTargets⟩

def runCap (ops : List CapOp) (s : CaptureSt) : CaptureSt :=
  ops.foldl (fun acc op => stepCap op acc) s

/-- The targets whose key-capture handlers will fire (commit or conflict a
key binding, lines 463–478) on the next keydown. -/
def keydownFires (s : CaptureSt) : List ℕ := s.armedKeyTargets

/-- At most one of the three listen-state variables is set. -/
def AtMostOneListen (s : CaptureSt) : Prop :=
  (s.listenKey = none ∨ s.listenMidi = none) ∧
    (s.listenKey = none ∨ s.listenCc = none) ∧
    (s.listenMidi = none ∨ s.listenCc = none)

instance (s : CaptureSt) : Decidable (AtMostOneListen s) := by
  unfold AtMostOneListen
  infer_instance

theorem atMostOneListen_stepCap (op : CapOp) (s : CaptureSt)
    (h : AtMostOneListen s) : AtMostOneListen (stepCap op s) := by
  obtain ⟨h1, h2, h3⟩ := h
  cases op <;>
    first
    | (simp_all [stepCap, AtMostOneListen]; tauto)
    | simp_all [stepCap, AtMostOneListen]

/-- Claim C10 counterexample: after arming a key capture for the Kick pad
(target 36) and then starting a MIDI-note capture for the Snare pad
(target 38), the MIDI capture is armed and yet the key capture is still
functionally pending — its one-shot keydown listener survived, so the
next keypress still fires the key-capture handler for 36 (committing or
conflicting a key binding) while `listenMidiForMidi` remains 38.  Two
captures of different kinds are pending at once, and starting the
MIDI capture did not cancel the pending key capture. -/
theorem capture_exclusivity_counterexample :
    (runCap [CapOp.startKey 36, CapOp.startMidi 38] capInit).listenMidi
        = some 38 ∧
    keydownFires (runCap [CapOp.startKey 36, CapOp.startMidi 38] capInit)
        = [36] ∧
    (stepCap CapOp.keydown
        (runCap [CapOp.startKey 36, CapOp.startMidi 38] capInit)).listenMidi
        = some 38 := by
  decide

/-- Claim C10 (amended): starting a capture of any kind nulls the other
two listen-state variables, so at most one listen-state variable is ever
set — in particular at most one of the MIDI-note and MIDI-CC captures
(which live entirely in those variables) is active at any time, and
starting any capture cancels a pending capture of those two kinds.  A
pending key capture, however, is its armed one-shot keydown listener:
starting a MIDI or CC capture leaves the armed listeners untouched, and
the next keydown still fires them, so a key capture can stay pending
across — and fire during — a capture of another kind. -/
theorem capture_exclusivity_amended :
    (∀ (t : ℕ) (s : CaptureSt),
      (stepCap (CapOp.startKey t) s).listenMidi = none ∧
      (stepCap (CapOp.startKey t) s).listenCc = none ∧
      (stepCap (CapOp.startMidi t) s).listenKey = none ∧
      (stepCap (CapOp.startMidi t) s).listenCc = none ∧
      (stepCap (CapOp.startCc t) s).listenKey = none ∧
      (stepCap (CapOp.startCc t) s).listenMidi = none) ∧
    (∀ (t : ℕ) (s : CaptureSt),
      (stepCap (CapOp.startMidi t) s).armedKeyTargets = s.armedKeyTargets ∧
      (stepCap (CapOp.startCc t) s).armedKeyTargets = s.armedKeyTargets ∧
      keydownFires (stepCap (CapOp.startMidi t) s) = keydownFires s ∧
      keydownFires (stepCap (CapOp.startCc t) s) = keydownFires s) ∧
    AtMostOneListen capInit ∧
    ∀ (ops : List CapOp) (s : CaptureSt), AtMostOneListen s →
      AtMostOneListen (runCap ops s) := by
  refine ⟨fun t s => ⟨rfl, rfl, rfl, rfl, rfl, rfl⟩,
    fun t s => ⟨rfl, rfl, rfl, rfl⟩,
    ⟨Or.inl rfl, Or.inl rfl, Or.inl rfl⟩, ?_⟩
  intro ops
  induction ops with
  | nil => intro s h; exact h
  | cons op rest ih =>
    intro s h
    exact ih (stepCap op s) (atMostOneListen_stepCap op s h)

theorem capture_exclusivity_amended_witness :
    AtMostOneListen capInit ∧
    AtMostOneListen (runCap
      [CapOp.startKey 36, CapOp.startMidi 38, CapOp.midiNoteEvent,
        CapOp.startCc 42, CapOp.keydown, CapOp.cancelAll] capInit) :=
  ⟨by decide,
    capture_exclusivity_amended.2.2.2
      [CapOp.startKey 36, CapOp.startMidi 38, CapOp.midiNoteEvent,
        CapOp.startCc 42, CapOp.keydown, CapOp.cancelAll] capInit (by decide)⟩

end Drumkit
